import Mathlib

/-!
Shallow embedding of `dvc/pkg.py` (package management: `Pkg`, `PkgManager`).

Paths and URLs are plain strings; the filesystem is the list of existing
paths.  External collaborators (git clone / ref checkout, the repository
handle, artifact-graph resolution, fetch, checkout) are modelled by an
environment of boolean oracles; their observable effects on the embedded
filesystem follow the source: a successful clone creates the target path,
`shutil.rmtree` removes a path and everything under it, a successful
output checkout materializes the output path.  Every operation also
returns a trace of events so ordering claims (what happened before what)
can be stated.
-/

namespace Dvc

/-- Split a character list at every occurrence of the character `sep`,
mirroring Python's `str.split(sep)` (an empty input gives one empty
component, `n` separators give `n+1` components). -/
def splitOnChar (sep : Char) : List Char → List (List Char)
  | [] => [[]]
  | c :: rest =>
    let r := splitOnChar sep rest
    if c = sep then [] :: r
    else
      match r with
      | [] => [[c]]
      | h :: t => (c :: h) :: t

/-- Last element of a list of components (empty for an empty list). -/
def lastComponent : List (List Char) → List Char
  | [] => []
  | [x] => x
  | _ :: y :: t => lastComponent (y :: t)

/-- `os.path.basename` for POSIX paths: everything after the last slash. -/
def basename (s : String) : String :=
  ⟨lastComponent (splitOnChar '/' s.data)⟩

/-- Join components with `/` (inverse of splitting, without outer slashes). -/
def joinComponents : List (List Char) → List Char
  | [] => []
  | [x] => x
  | x :: y :: t => x ++ '/' :: joinComponents (y :: t)

/-- Remove trailing `/` characters. -/
def dropTrailingSlashes (l : List Char) : List Char :=
  (l.reverse.dropWhile (fun c => c = '/')).reverse

/-- `os.path.dirname` for POSIX paths: the part before the last slash; the
head keeps its trailing slash only when it consists solely of slashes
(so `dirname "/a" = "/"`, `dirname "a/b/c" = "a/b"`, `dirname "a" = ""`). -/
def dirname (s : String) : String :=
  match splitOnChar '/' s.data with
  | [] => ""
  | [_] => ""
  | x :: y :: t =>
    let head := joinComponents (List.dropLast (x :: y :: t)) ++ ['/']
    if head.all (fun c => c = '/') then ⟨head⟩ else ⟨dropTrailingSlashes head⟩

/-- Whether a path string is absolute (starts with `/`). -/
def isAbsolutePath (s : String) : Bool :=
  match s.data with
  | '/' :: _ => true
  | _ => false

/-- Whether a path string ends with `/`. -/
def endsWithSlash (s : String) : Bool :=
  match s.data.reverse with
  | '/' :: _ => true
  | _ => false

/-- `os.path.abspath` relative to a current working directory; dot-segment
normalization is not modelled (inputs are assumed already normalized). -/
def abspath (cwd s : String) : String :=
  if isAbsolutePath s then s else cwd ++ "/" ++ s

/-- `os.path.join a b` for POSIX paths and one extra component. -/
def joinPath (a b : String) : String :=
  if isAbsolutePath b then b
  else if a = "" then b
  else if endsWithSlash a then a ++ b
  else a ++ "/" ++ b

/-- `str.lstrip("/")`: drop leading slashes. -/
def lstripSlashes (s : String) : String :=
  ⟨s.data.dropWhile (fun c => c = '/')⟩

/-- Scan for the first `://` and return what follows it, if any. -/
def dropScheme : List Char → Option (List Char)
  | ':' :: '/' :: '/' :: rest => some rest
  | _ :: rest => dropScheme rest
  | [] => none

/-- From `netloc/path`, the `/path` part (empty when no slash follows). -/
def pathAfterNetloc : List Char → List Char
  | [] => []
  | '/' :: r => '/' :: r
  | _ :: r => pathAfterNetloc r

/-- `urlparse(s).path`: for a scheme-less string the string itself, for
`scheme://netloc/path` the `/path` part. -/
def urlPathOf (s : String) : String :=
  match dropScheme s.data with
  | none => s
  | some rest => ⟨pathAfterNetloc rest⟩

/-- Decidable list-of-characters "starts with" test. -/
def charsLead : List Char → List Char → Bool
  | [], _ => true
  | _ :: _, [] => false
  | a :: as, b :: bs => if a = b then charsLead as bs else false

/-- The filesystem: the list of paths that currently exist. -/
abbrev FS := List String

/-- Decidable path membership in the filesystem. -/
def hasPath : FS → String → Bool
  | [], _ => false
  | q :: rest, p => if q = p then true else hasPath rest p

/-- `p` is `root` itself or lies strictly below it (`root/...`). -/
def isUnderOf (root p : String) : Bool :=
  (p = root) || charsLead (root.data ++ ['/']) p.data

/-- `shutil.rmtree root`: remove `root` and everything under it. -/
def removeTree (root : String) (fs : FS) : FS :=
  fs.filter (fun p => !(isUnderOf root p))

/-- Errors surfaced by the embedded operations.  `typeError` models the
Python `TypeError` raised by `os.path.basename(None)` (a non-domain error,
unlike the `DvcException`-derived `NotInstalledPkgError`); the collaborator
failures (clone, ref checkout, fetch, output checkout) model exceptions
propagating from git or the repository facets; `pathNotFound` and
`ambiguousPath` model resolving the requested source path to zero or to
more than one artifact-graph output. -/
inductive PkgError where
  | typeError : PkgError
  | notInstalled : String → PkgError
  | cloneFailure : PkgError
  | checkoutFailure : PkgError
  | pathNotFound : PkgError
  | ambiguousPath : PkgError
  | fetchFailure : PkgError
  | outputCheckoutFailure : PkgError
  deriving DecidableEq

/-- Observable events, in execution order. -/
inductive Event where
  | infoSkipInstall : Event
  | infoSkipUninstall : Event
  | rmtreeEvt : String → Event
  | cloneEvt : String → String → Event
  | checkoutRefEvt : String → Event
  | setCacheDirEvt : String → Event
  | setCacheTypeEvt : String → Event
  | mkTmpEvt : String → String → Event
  | resolveEvt : String → Event
  | fetchEvt : String → Event
  | redirectEvt : String → Event
  | checkoutOutEvt : String → Event
  | removeTmpEvt : String → Event
  deriving DecidableEq

/-- An artifact-graph output.
Modelled from the spec: `findOutputsByPath(path) -> list of outputs`; each
output belongs to a producing unit of work (stage) identifiable by a path
(the repository's artifact-graph facet is not part of the given source). -/
structure OutRec where
  stagePath : String
  deriving DecidableEq

/-- Environment of external collaborators: the working directory, the name
chosen for the temporary directory, and boolean oracles for the outcomes
of git clone, git ref checkout, content fetch and output checkout, plus
the artifact-graph resolution function (see `OutRec`). -/
structure Env where
  cwd : String
  tmpToken : String
  cloneOk : String → Bool
  checkoutRefOk : String → String → Bool
  findOutsByPath : String → List OutRec
  fetchOk : String → Bool
  outCheckoutOk : String → Bool

/-- The package descriptor, as built by `Pkg.__init__`: `pkg_dir`, the
optional `url`, the derived `name`, the optional `version`, and the stored
`path = os.path.join(pkg_dir, name)`. -/
structure Pkg where
  pkg_dir : String
  url : Option String
  name : String
  version : Option String
  path : String
  deriving DecidableEq

/-- `Pkg.__init__(pkg_dir, name=…, url=…, version=…)`: when `name` is not
given it defaults to `os.path.basename(url)`, which raises a `TypeError`
when `url` is also absent. -/
def Pkg.init (pkg_dir : String) (name url version : Option String) :
    Except PkgError Pkg :=
  match name with
  | some n => .ok ⟨pkg_dir, url, n, version, joinPath pkg_dir n⟩
  | none =>
    match url with
    | none => .error .typeError
    | some u => .ok ⟨pkg_dir, url, basename u, version, joinPath pkg_dir (basename u)⟩

/-- The descriptor `Pkg(pkg_dir, url=url, version=version)` builds (the
always-successful case of `Pkg.init` with a `url` and no explicit name). -/
def Pkg.ofUrl (pkg_dir u : String) (version : Option String) : Pkg :=
  ⟨pkg_dir, some u, basename u, version, joinPath pkg_dir (basename u)⟩

/-- `Pkg.installed`: the stored `path` exists on disk. -/
def Pkg.installedIn (pkg : Pkg) (fs : FS) : Bool :=
  hasPath fs pkg.path

/-- `Pkg.uninstall`: informational skip when not installed, otherwise
`shutil.rmtree(self.path)`. -/
def Pkg.uninstall (pkg : Pkg) (fs : FS) : FS × List Event :=
  if pkg.installedIn fs then (removeTree pkg.path fs, [.rmtreeEvt pkg.path])
  else (fs, [.infoSkipUninstall])

/-- Result of a stateful operation: the propagated error if any, the
filesystem afterwards, and the trace of events. -/
structure StepResult where
  err : Option PkgError
  fs : FS
  trace : List Event
  deriving DecidableEq

/-- Tail of `Pkg.install` after the version checkout: when a `cache_dir`
was given, set the sub-repository's local cache directory to it. -/
def Pkg.installCache (cache_dir : Option String) (fs : FS) (tr : List Event) :
    StepResult :=
  match cache_dir with
  | some d => ⟨none, fs, tr ++ [.setCacheDirEvt d]⟩
  | none => ⟨none, fs, tr⟩

/-- Clone phase of `Pkg.install`: `git.Repo.clone_from(url, path, depth=1,
no_single_branch=True)` creates `path` on success; then, when a `version`
is set, `self.repo.scm.checkout(version)`; then the cache step. -/
def Pkg.installClone (env : Env) (pkg : Pkg) (cache_dir : Option String)
    (fs : FS) (tr : List Event) : StepResult :=
  match pkg.url with
  | none => ⟨some .cloneFailure, fs, tr ++ [.cloneEvt "" pkg.path]⟩
  | some u =>
    if env.cloneOk u then
      let fs1 := pkg.path :: fs
      let tr1 := tr ++ [.cloneEvt u pkg.path]
      match pkg.version with
      | some v =>
        if env.checkoutRefOk u v then
          Pkg.installCache cache_dir fs1 (tr1 ++ [.checkoutRefEvt v])
        else ⟨some .checkoutFailure, fs1, tr1 ++ [.checkoutRefEvt v]⟩
      | none => Pkg.installCache cache_dir fs1 tr1
    else ⟨some .cloneFailure, fs, tr ++ [.cloneEvt u pkg.path]⟩

/-- `Pkg.install(cache_dir=None, force=False)`: informational skip when
already installed and not forced; uninstall first when forced; then clone,
optional version checkout, optional cache-directory configuration. -/
def Pkg.install (env : Env) (pkg : Pkg) (cache_dir : Option String)
    (force : Bool) (fs : FS) : StepResult :=
  if pkg.installedIn fs then
    if force = false then ⟨none, fs, [.infoSkipInstall]⟩
    else Pkg.installClone env pkg cache_dir (pkg.uninstall fs).1 (pkg.uninstall fs).2
  else Pkg.installClone env pkg cache_dir fs []

/-- A handle on the sub-repository at `path` (`dvc.repo.Repo(path,
version=version)`); `openId` records which open produced it, so that two
distinct opens yield distinct handles. -/
structure RepoHandle where
  path : String
  version : Option String
  openId : Nat
  deriving DecidableEq

/-- The `Pkg.repo` cached property: `cache` is the descriptor's memo slot
and `ctr` counts opens performed so far.  A cached handle is returned
as-is; otherwise the property raises `NotInstalledPkgError(name)` when not
installed, and else opens the repository once and memoizes the handle. -/
def Pkg.repoAccess (pkg : Pkg) (cache : Option RepoHandle) (fs : FS)
    (ctr : Nat) : Except PkgError (RepoHandle × Option RepoHandle × Nat) :=
  match cache with
  | some h => .ok (h, some h, ctr)
  | none =>
    if pkg.installedIn fs then
      .ok (⟨pkg.path, pkg.version, ctr⟩, some ⟨pkg.path, pkg.version, ctr⟩, ctr + 1)
    else .error (.notInstalled pkg.name)

/-- Truthiness of an optional string (Python `if s:`). -/
def truthy : Option String → Bool
  | none => false
  | some s => !(s = "")

/-- Association-list lookup for serialized fields. -/
def lookupKey : List (String × String) → String → Option String
  | [], _ => none
  | (k, v) :: rest, key => if k = key then some v else lookupKey rest key

/-- `Pkg.dumpd`: always the `name`; the `url` and `version` keys only when
the corresponding field is truthy. -/
def Pkg.dumpd (pkg : Pkg) : List (String × String) :=
  [("name", pkg.name)]
    ++ (if truthy pkg.url then [("url", pkg.url.getD "")] else [])
    ++ (if truthy pkg.version then [("version", pkg.version.getD "")] else [])

/-- The output path `PkgManager.get` actually uses: the given `out`, or
`os.path.basename(src)` when `out` is absent or empty. -/
def effectiveOut (src : String) (out : Option String) : String :=
  match out with
  | none => basename src
  | some o => if o = "" then basename src else o

/-- The temporary directory `TemporaryDirectory(dir=dpath, prefix=".")`
produces: a fresh dot-named entry inside `dpath`. -/
def tmpDirOf (env : Env) (dpath : String) : String :=
  joinPath dpath ("." ++ env.tmpToken)

/-- Body of `PkgManager.get` inside the temporary-directory scope: install
the ephemeral package (no cache directory, not forced), set the package's
cache link-type configuration to `"reflink,hardlink,copy"`, resolve the
requested source path inside the package into exactly one artifact-graph
output (`output, = pkg.repo.find_outs_by_path(src)` — zero or several
matches raise), fetch that output's stage, redirect the output's target
path to the absolute `out`, and check it out (a successful checkout
materializes `out`). -/
def PkgManager.getBody (env : Env) (pkg : Pkg) (src outAbs : String)
    (fs : FS) : StepResult :=
  let r1 := Pkg.install env pkg none false fs
  match r1.err with
  | some e => ⟨some e, r1.fs, r1.trace⟩
  | none =>
    let tr2 := r1.trace ++ [Event.setCacheTypeEvt "reflink,hardlink,copy"]
    let srcFull := joinPath pkg.path (lstripSlashes (urlPathOf src))
    let tr3 := tr2 ++ [Event.resolveEvt srcFull]
    match env.findOutsByPath srcFull with
    | [] => ⟨some .pathNotFound, r1.fs, tr3⟩
    | [o] =>
      if env.fetchOk o.stagePath then
        let tr4 := tr3 ++ [Event.fetchEvt o.stagePath, Event.redirectEvt outAbs]
        if env.outCheckoutOk outAbs then
          ⟨none, outAbs :: r1.fs, tr4 ++ [Event.checkoutOutEvt outAbs]⟩
        else ⟨some .outputCheckoutFailure, r1.fs, tr4 ++ [Event.checkoutOutEvt outAbs]⟩
      else ⟨some .fetchFailure, r1.fs, tr3 ++ [Event.fetchEvt o.stagePath]⟩
    | _ :: _ :: _ => ⟨some .ambiguousPath, r1.fs, tr3⟩

/-- `PkgManager.get(url, src, out=None, version=None)`: derive the output
path, create a temporary directory inside the parent directory of the
absolute output path, run the body on an ephemeral descriptor rooted at
that temporary directory, and — whether the body succeeded or raised —
remove the temporary directory and everything under it before returning
(the `with TemporaryDirectory(...)` scope). -/
def PkgManager.get (env : Env) (url src : String) (out : Option String)
    (version : Option String) (fs : FS) : StepResult :=
  let out1 := effectiveOut src out
  let dpath := dirname (abspath env.cwd out1)
  let tmp := tmpDirOf env dpath
  let pkg := Pkg.ofUrl tmp url version
  let body := PkgManager.getBody env pkg src (abspath env.cwd out1) (tmp :: fs)
  ⟨body.err, removeTree tmp body.fs,
    Event.mkTmpEvt dpath ("." ++ env.tmpToken) :: body.trace ++ [Event.removeTmpEvt tmp]⟩

/-- The path `PkgManager.get` resolves inside the ephemeral package:
`os.path.join(pkg.path, urlparse(src).path.lstrip("/"))`. -/
def PkgManager.resolvedSrc (env : Env) (url src : String) (out : Option String) :
    String :=
  let tmp := tmpDirOf env (dirname (abspath env.cwd (effectiveOut src out)))
  joinPath (joinPath tmp (basename url)) (lstripSlashes (urlPathOf src))

/-- Is the event a content fetch or an output checkout? -/
def isFetchOrOutCheckout : Event → Bool
  | .fetchEvt _ => true
  | .checkoutOutEvt _ => true
  | _ => false

/-- Is the event a cache-directory configuration write? -/
def isSetCacheDirEvt : Event → Bool
  | .setCacheDirEvt _ => true
  | _ => false

/-- No content fetch and no output checkout occurs in the trace. -/
def noFetchOrCheckout (tr : List Event) : Bool :=
  tr.all (fun e => !(isFetchOrOutCheckout e))

/-- Scan a trace left to right: every resolution, fetch or output-checkout
event must be preceded by a cache link-type configuration write of exactly
`"reflink,hardlink,copy"` (`seen` records whether one was emitted so far). -/
def cacheTypeSetFirst : List Event → Bool → Bool
  | [], _ => true
  | e :: tr, seen =>
    match e with
    | .setCacheTypeEvt v => cacheTypeSetFirst tr (seen || (v = "reflink,hardlink,copy"))
    | .resolveEvt _ => seen && cacheTypeSetFirst tr seen
    | .fetchEvt _ => seen && cacheTypeSetFirst tr seen
    | .checkoutOutEvt _ => seen && cacheTypeSetFirst tr seen
    | _ => cacheTypeSetFirst tr seen

/-- Events that the install phase (clone / ref checkout / uninstall /
informational skips) may emit when no cache directory is propagated. -/
def installStepEvt : Event → Bool
  | .infoSkipInstall => true
  | .infoSkipUninstall => true
  | .rmtreeEvt _ => true
  | .cloneEvt _ _ => true
  | .checkoutRefEvt _ => true
  | _ => false

/-- Whether a fallible computation succeeded. -/
def exceptOk {e a : Type} : Except e a → Bool
  | .ok _ => true
  | .error _ => false

/-- Environment in which every collaborator call succeeds and path
resolution finds exactly one output. -/
def envAll : Env :=
  ⟨"/w", "T", fun _ => true, fun _ _ => true, fun _ => [⟨"/st"⟩],
    fun _ => true, fun _ => true⟩

/-- Environment in which path resolution finds no output. -/
def envNoOuts : Env :=
  ⟨"/w", "T", fun _ => true, fun _ _ => true, fun _ => [],
    fun _ => true, fun _ => true⟩

/-- Environment in which path resolution finds two outputs. -/
def envTwoOuts : Env :=
  ⟨"/w", "T", fun _ => true, fun _ _ => true, fun _ => [⟨"/s1"⟩, ⟨"/s2"⟩],
    fun _ => true, fun _ => true⟩

/-- Environment in which cloning succeeds but every ref checkout fails. -/
def envNoRef : Env :=
  ⟨"/w", "T", fun _ => true, fun _ _ => false, fun _ => [⟨"/st"⟩],
    fun _ => true, fun _ => true⟩

/-- A descriptor built from a url only (name defaults to the basename). -/
def pkgU : Pkg := Pkg.ofUrl "/r" "u" none

/-- The handle the first successful `repo` access on `pkgU` opens. -/
def handleU : RepoHandle := ⟨joinPath "/r" "u", none, 0⟩

/-- A descriptor with explicit name `p`, url `u` and pinned version `v1`
(the shape `Pkg.init "/r" (some "p") (some "u") (some "v1")` produces). -/
def pkgP : Pkg := ⟨"/r", some "u", "p", some "v1", joinPath "/r" "p"⟩

/-- A filesystem where `pkgP` is installed and its checkout carries a
marker file. -/
def fsP : FS := [joinPath "/r" "p", joinPath (joinPath "/r" "p") "marker"]

theorem hasPath_cons_self (p : String) (fs : FS) : hasPath (p :: fs) p = true := by
  simp [hasPath]

theorem isUnderOf_self (root : String) : isUnderOf root root = true := by
  simp [isUnderOf]

theorem hasPath_removeTree (root p : String) (fs : FS)
    (h : isUnderOf root p = true) : hasPath (removeTree root fs) p = false := by
  induction fs with
  | nil => rfl
  | cons q rest ih =>
    by_cases hq : isUnderOf root q = true
    · simpa [removeTree, List.filter, hq] using ih
    · have hqp : q ≠ p := fun e => hq (e ▸ h)
      simp only [removeTree, List.filter] at *
      simp [hq, hasPath, hqp, ih]

theorem installCache_err (cd : Option String) (fs : FS) (tr : List Event) :
    (Pkg.installCache cd fs tr).err = none := by
  cases cd <;> rfl

theorem installCache_fs (cd : Option String) (fs : FS) (tr : List Event) :
    (Pkg.installCache cd fs tr).fs = fs := by
  cases cd <;> rfl

theorem installClone_ok_installed (env : Env) (pkg : Pkg) (cd : Option String)
    (fs : FS) (tr : List Event)
    (h : (Pkg.installClone env pkg cd fs tr).err = none) :
    pkg.installedIn (Pkg.installClone env pkg cd fs tr).fs = true := by
  cases hu : pkg.url with
  | none => simp [Pkg.installClone, hu] at h
  | some u =>
    cases hc : env.cloneOk u with
    | false => simp [Pkg.installClone, hu, hc] at h
    | true =>
      cases hv : pkg.version with
      | none =>
        simp [Pkg.installClone, hu, hc, hv, installCache_fs, Pkg.installedIn, hasPath]
      | some v =>
        cases hr : env.checkoutRefOk u v with
        | false => simp [Pkg.installClone, hu, hc, hv, hr] at h
        | true =>
          simp [Pkg.installClone, hu, hc, hv, hr, installCache_fs, Pkg.installedIn, hasPath]

theorem install_ok_installed (env : Env) (pkg : Pkg) (cd : Option String)
    (force : Bool) (fs : FS)
    (h : (Pkg.install env pkg cd force fs).err = none) :
    pkg.installedIn (Pkg.install env pkg cd force fs).fs = true := by
  cases hi : pkg.installedIn fs with
  | true =>
    cases force with
    | false => simp [Pkg.install, hi]
    | true =>
      have h' : (Pkg.installClone env pkg cd (pkg.uninstall fs).1
          (pkg.uninstall fs).2).err = none := by
        simpa [Pkg.install, hi] using h
      simpa [Pkg.install, hi] using installClone_ok_installed _ _ _ _ _ h'
  | false =>
    have h' : (Pkg.installClone env pkg cd fs []).err = none := by
      simpa [Pkg.install, hi] using h
    simpa [Pkg.install, hi] using installClone_ok_installed _ _ _ _ _ h'

theorem installCache_trace_none (fs : FS) (tr : List Event) :
    (Pkg.installCache none fs tr).trace = tr := rfl

theorem installClone_trace_steps (env : Env) (pkg : Pkg) (fs : FS)
    (tr : List Event) (h : tr.all installStepEvt = true) :
    (Pkg.installClone env pkg none fs tr).trace.all installStepEvt = true := by
  cases hu : pkg.url with
  | none => simp [Pkg.installClone, hu, h, installStepEvt]
  | some u =>
    cases hc : env.cloneOk u with
    | false => simp [Pkg.installClone, hu, hc, h, installStepEvt]
    | true =>
      cases hv : pkg.version with
      | none =>
        simp [Pkg.installClone, hu, hc, hv, installCache_trace_none, h, installStepEvt]
      | some v =>
        cases hr : env.checkoutRefOk u v with
        | false => simp [Pkg.installClone, hu, hc, hv, hr, h, installStepEvt]
        | true =>
          simp [Pkg.installClone, hu, hc, hv, hr, installCache_trace_none, h,
            installStepEvt]

theorem uninstall_trace_steps (pkg : Pkg) (fs : FS) :
    (pkg.uninstall fs).2.all installStepEvt = true := by
  by_cases hi : pkg.installedIn fs = true <;>
    simp [Pkg.uninstall, hi, installStepEvt]

theorem install_trace_steps (env : Env) (pkg : Pkg) (force : Bool) (fs : FS) :
    (Pkg.install env pkg none force fs).trace.all installStepEvt = true := by
  cases hi : pkg.installedIn fs with
  | true =>
    cases force with
    | false => simp [Pkg.install, hi, installStepEvt]
    | true =>
      simp only [Pkg.install, hi, if_true, Bool.true_eq_false, if_false]
      exact installClone_trace_steps _ _ _ _ (uninstall_trace_steps pkg fs)
  | false =>
    simp only [Pkg.install, hi, Bool.false_eq_true, if_false]
    exact installClone_trace_steps _ _ _ _ rfl

theorem cacheTypeSetFirst_append (tr rest : List Event) (seen : Bool)
    (h : tr.all installStepEvt = true) :
    cacheTypeSetFirst (tr ++ rest) seen = cacheTypeSetFirst rest seen := by
  induction tr generalizing seen with
  | nil => rfl
  | cons e t ih =>
    simp only [List.all_cons, Bool.and_eq_true] at h
    obtain ⟨he, ht⟩ := h
    cases e <;> simp [installStepEvt] at he <;>
      simp [cacheTypeSetFirst, ih _ ht]

theorem noFetchOrCheckout_of_steps (tr : List Event)
    (h : tr.all installStepEvt = true) : noFetchOrCheckout tr = true := by
  simp only [noFetchOrCheckout, List.all_eq_true] at *
  intro e he
  have := h e he
  cases e <;> simp_all [installStepEvt, isFetchOrOutCheckout]

theorem no_setCacheDir_of_steps (tr : List Event)
    (h : tr.all installStepEvt = true) :
    tr.all (fun e => !(isSetCacheDirEvt e)) = true := by
  simp only [List.all_eq_true] at *
  intro e he
  have := h e he
  cases e <;> simp_all [installStepEvt, isSetCacheDirEvt]

theorem no_setCacheType_of_steps (tr : List Event) (v : String)
    (h : tr.all installStepEvt = true) : Event.setCacheTypeEvt v ∉ tr := by
  intro hm
  simp only [List.all_eq_true] at h
  have := h _ hm
  simp [installStepEvt] at this

theorem uninstall_of_not_installed (pkg : Pkg) (fs : FS)
    (h : pkg.installedIn fs = false) :
    pkg.uninstall fs = (fs, [Event.infoSkipUninstall]) := by
  simp [Pkg.uninstall, h]

theorem uninstall_of_installed (pkg : Pkg) (fs : FS)
    (h : pkg.installedIn fs = true) :
    pkg.uninstall fs = (removeTree pkg.path fs, [Event.rmtreeEvt pkg.path]) := by
  simp [Pkg.uninstall, h]

theorem uninstall_not_installed_after (pkg : Pkg) (fs : FS) :
    pkg.installedIn (pkg.uninstall fs).1 = false := by
  cases hi : pkg.installedIn fs with
  | true =>
    rw [uninstall_of_installed pkg fs hi]
    exact hasPath_removeTree _ _ _ (isUnderOf_self _)
  | false => rw [uninstall_of_not_installed pkg fs hi]; exact hi

/-- C1: every `PkgManager.get` invocation removes the temporary directory
it creates — and everything under it, the ephemeral package and its cache
included — by the time the call returns, on every exit path (success or
any propagated failure): no path at or under the temporary directory
exists in the resulting filesystem. -/
theorem get_removes_tmpdir (env : Env) (url src : String)
    (out version : Option String) (fs : FS) (p : String)
    (hp : isUnderOf
      (tmpDirOf env (dirname (abspath env.cwd (effectiveOut src out)))) p = true) :
    hasPath (PkgManager.get env url src out version fs).fs p = false :=
  hasPath_removeTree _ _ _ hp

theorem get_removes_tmpdir_witness :
    isUnderOf (tmpDirOf envAll
      (dirname (abspath envAll.cwd (effectiveOut "data.csv" (some "/a/b/c.csv")))))
      "/a/b/.T" = true
  ∧ hasPath (PkgManager.get envAll "http://h/repo" "data.csv"
      (some "/a/b/c.csv") none []).fs "/a/b/.T" = false :=
  ⟨by decide,
   get_removes_tmpdir envAll "http://h/repo" "data.csv" (some "/a/b/c.csv")
     none [] "/a/b/.T" (by decide)⟩

/-- C2: a successful `install` leaves the package installed; `uninstall`
leaves it not installed; and `uninstall` is idempotent — run on the state
it produced it changes nothing and raises no error, only emitting the
informational skip notice. -/
theorem install_uninstall_lifecycle (env : Env) (pkg : Pkg)
    (cache_dir : Option String) (force : Bool) (fs : FS) :
    ((Pkg.install env pkg cache_dir force fs).err = none →
      pkg.installedIn (Pkg.install env pkg cache_dir force fs).fs = true)
  ∧ pkg.installedIn (pkg.uninstall fs).1 = false
  ∧ pkg.uninstall (pkg.uninstall fs).1 =
      ((pkg.uninstall fs).1, [Event.infoSkipUninstall]) :=
  ⟨fun h => install_ok_installed env pkg cache_dir force fs h,
   uninstall_not_installed_after pkg fs,
   uninstall_of_not_installed pkg _ (uninstall_not_installed_after pkg fs)⟩

theorem install_uninstall_lifecycle_witness :
    pkgU.installedIn (Pkg.install envAll pkgU none false []).fs = true
  ∧ pkgU.installedIn (pkgU.uninstall []).1 = false
  ∧ pkgU.uninstall (pkgU.uninstall []).1 =
      ((pkgU.uninstall []).1, [Event.infoSkipUninstall]) :=
  ⟨(install_uninstall_lifecycle envAll pkgU none false []).1 (by decide),
   (install_uninstall_lifecycle envAll pkgU none false []).2.1,
   (install_uninstall_lifecycle envAll pkgU none false []).2.2⟩

/-- C6: `install(force=False)` on an already-installed package is a pure
no-op: it returns success with the filesystem exactly unchanged and the
only event is the informational skip notice (no clone event). -/
theorem install_noop_when_installed (env : Env) (pkg : Pkg)
    (cache_dir : Option String) (fs : FS)
    (h : pkg.installedIn fs = true) :
    Pkg.install env pkg cache_dir false fs = ⟨none, fs, [Event.infoSkipInstall]⟩ := by
  simp [Pkg.install, h]

theorem install_noop_when_installed_witness :
    pkgU.installedIn [joinPath "/r" "u", joinPath (joinPath "/r" "u") "marker"] = true
  ∧ Pkg.install envAll pkgU none false
      [joinPath "/r" "u", joinPath (joinPath "/r" "u") "marker"] =
      ⟨none, [joinPath "/r" "u", joinPath (joinPath "/r" "u") "marker"],
        [Event.infoSkipInstall]⟩ :=
  ⟨by decide,
   install_noop_when_installed envAll pkgU none
     [joinPath "/r" "u", joinPath (joinPath "/r" "u") "marker"] (by decide)⟩

/-- C10: constructing a descriptor with neither a name nor a url fails
immediately with the non-domain `typeError` (the Python `TypeError` from
`os.path.basename(None)`), and construction succeeds exactly when at
least one of name or url is given. -/
theorem init_requires_name_or_url (pkg_dir : String)
    (name url version : Option String) :
    Pkg.init pkg_dir none none version = .error .typeError
  ∧ exceptOk (Pkg.init pkg_dir name url version) = (name.isSome || url.isSome) := by
  refine ⟨rfl, ?_⟩
  cases name <;> cases url <;> rfl

/-- C3 counterexample: the cached `repo` property does not re-check the
installed state.  Install `pkgU`, access `repo` once (the handle is
memoized), uninstall; the next access finds `installed` false yet returns
the cached handle instead of raising the NotInstalled condition — so
"accessing the handle when installed is false raises NotInstalled" fails
as stated. -/
theorem repo_access_cached_uninstalled_counterexample :
    Pkg.repoAccess pkgU none [joinPath "/r" "u"] 0 = .ok (handleU, some handleU, 1)
  ∧ pkgU.installedIn (pkgU.uninstall [joinPath "/r" "u"]).1 = false
  ∧ Pkg.repoAccess pkgU (some handleU) (pkgU.uninstall [joinPath "/r" "u"]).1 1 =
      .ok (handleU, some handleU, 1) :=
  ⟨rfl, rfl, rfl⟩

/-- C3 amended: when no handle has been cached yet, accessing `repo` with
`installed` false raises the NotInstalled condition naming the package;
a successful access caches its handle, and every later access returns
that same cached handle (regardless of the installed state at that time)
without opening the repository again. -/
theorem repo_lazy_cached (pkg : Pkg) (fs : FS) (ctr : Nat) :
    (pkg.installedIn fs = false →
      Pkg.repoAccess pkg none fs ctr = .error (.notInstalled pkg.name))
  ∧ (∀ cache h c n, Pkg.repoAccess pkg cache fs ctr = .ok (h, c, n) →
      c = some h ∧ ∀ fs2 m, Pkg.repoAccess pkg (some h) fs2 m = .ok (h, some h, m)) := by
  constructor
  · intro hni
    simp [Pkg.repoAccess, hni]
  · intro cache h c n hacc
    cases cache with
    | some h0 =>
      simp only [Pkg.repoAccess, Except.ok.injEq, Prod.mk.injEq] at hacc
      obtain ⟨h1, h2, -⟩ := hacc
      subst h1
      exact ⟨h2.symm, fun fs2 m => rfl⟩
    | none =>
      cases hi : pkg.installedIn fs with
      | true =>
        simp only [Pkg.repoAccess, hi, if_true, Except.ok.injEq, Prod.mk.injEq] at hacc
        obtain ⟨h1, h2, -⟩ := hacc
        subst h1
        exact ⟨h2.symm, fun fs2 m => rfl⟩
      | false => simp [Pkg.repoAccess, hi] at hacc

theorem repo_lazy_cached_witness :
    Pkg.repoAccess pkgU none [] 0 = .error (.notInstalled pkgU.name)
  ∧ (some handleU = some handleU
      ∧ ∀ fs2 m, Pkg.repoAccess pkgU (some handleU) fs2 m = .ok (handleU, some handleU, m)) :=
  ⟨(repo_lazy_cached pkgU [] 0).1 rfl,
   (repo_lazy_cached pkgU [joinPath "/r" "u"] 0).2 none handleU (some handleU) 1 rfl⟩

/-- C7: `dumpd` always carries the `name` key, carries the `url` and
`version` keys exactly when the field is set and non-empty, and a
descriptor reconstructed from a `dumpd` result with the same root has the
same `path`. -/
theorem dumpd_keys_roundtrip (pkg_dir : String) (name url version : Option String)
    (pkg : Pkg) (h : Pkg.init pkg_dir name url version = .ok pkg) :
    lookupKey pkg.dumpd "name" = some pkg.name
  ∧ (lookupKey pkg.dumpd "url").isSome = truthy pkg.url
  ∧ (lookupKey pkg.dumpd "version").isSome = truthy pkg.version
  ∧ ∃ pkg2, Pkg.init pkg_dir (lookupKey pkg.dumpd "name") (lookupKey pkg.dumpd "url")
      (lookupKey pkg.dumpd "version") = .ok pkg2 ∧ pkg2.path = pkg.path := by
  have hshape : ∃ n, pkg = ⟨pkg_dir, url, n, version, joinPath pkg_dir n⟩ := by
    cases name with
    | some n =>
      simp only [Pkg.init, Except.ok.injEq] at h
      exact ⟨n, h.symm⟩
    | none =>
      cases url with
      | none => simp [Pkg.init] at h
      | some u =>
        simp only [Pkg.init, Except.ok.injEq] at h
        exact ⟨basename u, h.symm⟩
  obtain ⟨n, rfl⟩ := hshape
  cases hu : truthy url <;> cases hv : truthy version <;>
    simp_all [Pkg.dumpd, Pkg.init, Pkg.dumpd, lookupKey, truthy]

theorem dumpd_keys_roundtrip_witness :
    lookupKey (Pkg.ofUrl "/r" "u" (some "v1")).dumpd "name" =
      some (Pkg.ofUrl "/r" "u" (some "v1")).name
  ∧ (lookupKey (Pkg.ofUrl "/r" "u" (some "v1")).dumpd "url").isSome =
      truthy (Pkg.ofUrl "/r" "u" (some "v1")).url
  ∧ (lookupKey (Pkg.ofUrl "/r" "u" (some "v1")).dumpd "version").isSome =
      truthy (Pkg.ofUrl "/r" "u" (some "v1")).version
  ∧ ∃ pkg2, Pkg.init "/r" (lookupKey (Pkg.ofUrl "/r" "u" (some "v1")).dumpd "name")
      (lookupKey (Pkg.ofUrl "/r" "u" (some "v1")).dumpd "url")
      (lookupKey (Pkg.ofUrl "/r" "u" (some "v1")).dumpd "version") = .ok pkg2
      ∧ pkg2.path = (Pkg.ofUrl "/r" "u" (some "v1")).path :=
  dumpd_keys_roundtrip "/r" none (some "u") (some "v1") _ rfl

/-- C8 counterexample: the temporary directory is not created as a sibling
of `out`'s parent directory.  With `out = "/a/b/c"`, the directory passed
to the temporary-directory constructor (first trace event) is `out`'s
parent `/a/b` itself — a sibling of `out`'s parent would require creation
inside `/a`, and the two differ. -/
theorem get_tmpdir_sibling_counterexample :
    (PkgManager.get envAll "u" "data.csv" (some "/a/b/c") none []).trace.head? =
      some (Event.mkTmpEvt (dirname (abspath "/w" "/a/b/c")) ".T")
  ∧ dirname (abspath "/w" "/a/b/c") ≠ dirname (dirname (abspath "/w" "/a/b/c")) :=
  ⟨rfl, by decide⟩

/-- C8 amended: the temporary directory is created inside the parent
directory of `out`'s absolute path — a sibling of `out` itself — which is
what keeps it on `out`'s filesystem: the first event of every
`PkgManager.get` run records exactly that directory as the creation
target. -/
theorem get_tmpdir_in_out_parent (env : Env) (url src : String)
    (out version : Option String) (fs : FS) :
    (PkgManager.get env url src out version fs).trace.head? =
      some (Event.mkTmpEvt (dirname (abspath env.cwd (effectiveOut src out)))
        ("." ++ env.tmpToken)) := rfl

/-- C9 counterexample: `install(force=True)` on an installed package with
a pinned version whose checkout fails propagates the checkout failure
while `installed` is *true* (the fresh clone is present at `path`), so
"the error propagates with installed false" does not hold for the
version-checkout failure case. -/
theorem install_force_counterexample :
    (Pkg.install envNoRef pkgP none true fsP).err = some .checkoutFailure
  ∧ pkgP.installedIn (Pkg.install envNoRef pkgP none true fsP).fs = true := by
  decide

/-- C9 amended: `install(force=True)` on an installed package is not
atomic — the prior installation is removed before the clone begins, so
when an error propagates nothing of the previous content under `path`
survives: on clone failure `installed` is false, and on version-checkout
failure the fresh clone is present (`installed` true) but the prior state
is not restored either way. -/
theorem install_force_not_atomic (env : Env) (pkg : Pkg)
    (cache_dir : Option String) (fs : FS) (e : PkgError)
    (hi : pkg.installedIn fs = true)
    (he : (Pkg.install env pkg cache_dir true fs).err = some e) :
    (∀ p, isUnderOf pkg.path p = true → p ≠ pkg.path →
      hasPath (Pkg.install env pkg cache_dir true fs).fs p = false)
  ∧ (e = .cloneFailure →
      pkg.installedIn (Pkg.install env pkg cache_dir true fs).fs = false)
  ∧ (e = .checkoutFailure →
      pkg.installedIn (Pkg.install env pkg cache_dir true fs).fs = true) := by
  have hun : Pkg.install env pkg cache_dir true fs =
      Pkg.installClone env pkg cache_dir (removeTree pkg.path fs)
        [Event.rmtreeEvt pkg.path] := by
    simp [Pkg.install, hi, uninstall_of_installed pkg fs hi]
  rw [hun] at he ⊢
  cases hu : pkg.url with
  | none =>
    have hee : e = PkgError.cloneFailure := by
      simpa [Pkg.installClone, hu] using he.symm
    subst hee
    refine ⟨?_, ?_, ?_⟩
    · intro p hp _
      simpa [Pkg.installClone, hu] using hasPath_removeTree _ _ fs hp
    · intro _
      simpa [Pkg.installClone, hu, Pkg.installedIn] using
        hasPath_removeTree _ _ fs (isUnderOf_self _)
    · intro hcontra; exact absurd hcontra (by simp)
  | some u =>
    cases hc : env.cloneOk u with
    | false =>
      have hee : e = PkgError.cloneFailure := by
        simpa [Pkg.installClone, hu, hc] using he.symm
      subst hee
      refine ⟨?_, ?_, ?_⟩
      · intro p hp _
        simpa [Pkg.installClone, hu, hc] using hasPath_removeTree _ _ fs hp
      · intro _
        simpa [Pkg.installClone, hu, hc, Pkg.installedIn] using
          hasPath_removeTree _ _ fs (isUnderOf_self _)
      · intro hcontra; exact absurd hcontra (by simp)
    | true =>
      cases hv : pkg.version with
      | none => simp [Pkg.installClone, hu, hc, hv, installCache_err] at he
      | some v =>
        cases hr : env.checkoutRefOk u v with
        | true => simp [Pkg.installClone, hu, hc, hv, hr, installCache_err] at he
        | false =>
          have hee : e = PkgError.checkoutFailure := by
            simpa [Pkg.installClone, hu, hc, hv, hr] using he.symm
          subst hee
          refine ⟨?_, ?_, ?_⟩
          · intro p hp hne
            have : hasPath (removeTree pkg.path fs) p = false :=
              hasPath_removeTree _ _ fs hp
            simp [Pkg.installClone, hu, hc, hv, hr, hasPath, hne.symm, this]
          · intro hcontra; exact absurd hcontra (by simp)
          · intro _
            simp [Pkg.installClone, hu, hc, hv, hr, Pkg.installedIn, hasPath]

theorem install_force_not_atomic_witness :
    (∀ p, isUnderOf pkgP.path p = true → p ≠ pkgP.path →
      hasPath (Pkg.install envNoRef pkgP none true fsP).fs p = false)
  ∧ (PkgError.checkoutFailure = .cloneFailure →
      pkgP.installedIn (Pkg.install envNoRef pkgP none true fsP).fs = false)
  ∧ (PkgError.checkoutFailure = .checkoutFailure →
      pkgP.installedIn (Pkg.install envNoRef pkgP none true fsP).fs = true) :=
  install_force_not_atomic envNoRef pkgP none fsP .checkoutFailure
    (by decide) (by decide)

theorem install_ok_of_env (env : Env) (pkg : Pkg) (cd : Option String)
    (force : Bool) (fs : FS) (u : String) (hu : pkg.url = some u)
    (hc : env.cloneOk u = true)
    (hv : ∀ v, pkg.version = some v → env.checkoutRefOk u v = true) :
    (Pkg.install env pkg cd force fs).err = none := by
  have hclone : ∀ fs1 tr1, (Pkg.installClone env pkg cd fs1 tr1).err = none := by
    intro fs1 tr1
    cases hvv : pkg.version with
    | none => simp [Pkg.installClone, hu, hc, hvv, installCache_err]
    | some v => simp [Pkg.installClone, hu, hc, hvv, hv v hvv, installCache_err]
  cases hi : pkg.installedIn fs with
  | true =>
    cases force with
    | false => simp [Pkg.install, hi]
    | true => simp [Pkg.install, hi, hclone]
  | false => simp [Pkg.install, hi, hclone]

/-- C4: when the ephemeral install succeeds and the requested source path
resolves to zero artifact-graph outputs, `PkgManager.get` fails with the
PathNotFound condition; when it resolves to more than one, with the
AmbiguousPath condition; and in both cases no content fetch and no output
checkout happens anywhere in the run. -/
theorem get_resolution_failure (env : Env) (url src : String)
    (out version : Option String) (fs : FS)
    (hc : env.cloneOk url = true)
    (hv : ∀ v, version = some v → env.checkoutRefOk url v = true) :
    (env.findOutsByPath (PkgManager.resolvedSrc env url src out) = [] →
      (PkgManager.get env url src out version fs).err = some .pathNotFound
      ∧ noFetchOrCheckout (PkgManager.get env url src out version fs).trace = true)
  ∧ (2 ≤ (env.findOutsByPath (PkgManager.resolvedSrc env url src out)).length →
      (PkgManager.get env url src out version fs).err = some .ambiguousPath
      ∧ noFetchOrCheckout (PkgManager.get env url src out version fs).trace = true) := by
  have hok := install_ok_of_env env
    (Pkg.ofUrl (tmpDirOf env (dirname (abspath env.cwd (effectiveOut src out)))) url version)
    none false
    (tmpDirOf env (dirname (abspath env.cwd (effectiveOut src out))) :: fs)
    url rfl hc (fun v hv' => hv v hv')
  have hsteps := install_trace_steps env
    (Pkg.ofUrl (tmpDirOf env (dirname (abspath env.cwd (effectiveOut src out)))) url version)
    false
    (tmpDirOf env (dirname (abspath env.cwd (effectiveOut src out))) :: fs)
  rcases hR : Pkg.install env
    (Pkg.ofUrl (tmpDirOf env (dirname (abspath env.cwd (effectiveOut src out)))) url version)
    none false
    (tmpDirOf env (dirname (abspath env.cwd (effectiveOut src out))) :: fs)
    with ⟨e, fs1, tr1⟩
  rw [hR] at hok hsteps
  simp only at hok hsteps
  subst hok
  simp only [Pkg.ofUrl] at hR
  have hnf : tr1.all (fun ev => !(isFetchOrOutCheckout ev)) = true :=
    noFetchOrCheckout_of_steps tr1 hsteps
  constructor
  · intro houts
    simp only [PkgManager.resolvedSrc] at houts
    constructor
    · simp [PkgManager.get, PkgManager.getBody, hR, Pkg.ofUrl, houts]
    · simp [PkgManager.get, PkgManager.getBody, hR, Pkg.ofUrl, houts,
        noFetchOrCheckout, List.all_append, List.all_cons, isFetchOrOutCheckout]
      simpa using hnf
  · intro hlen
    simp only [PkgManager.resolvedSrc] at hlen
    cases houts : env.findOutsByPath
        (joinPath (joinPath (tmpDirOf env (dirname (abspath env.cwd (effectiveOut src out))))
          (basename url)) (lstripSlashes (urlPathOf src))) with
    | nil => rw [houts] at hlen; simp at hlen
    | cons a t =>
      cases t with
      | nil => rw [houts] at hlen; simp at hlen
      | cons b t2 =>
        constructor
        · simp [PkgManager.get, PkgManager.getBody, hR, Pkg.ofUrl, houts]
        · simp [PkgManager.get, PkgManager.getBody, hR, Pkg.ofUrl, houts,
            noFetchOrCheckout, List.all_append, List.all_cons, isFetchOrOutCheckout]
          simpa using hnf

theorem get_resolution_failure_witness :
    (PkgManager.get envNoOuts "u" "data.csv" (some "/a/b/c.csv") none []).err =
      some .pathNotFound
  ∧ noFetchOrCheckout
      (PkgManager.get envNoOuts "u" "data.csv" (some "/a/b/c.csv") none []).trace = true :=
  (get_resolution_failure envNoOuts "u" "data.csv" (some "/a/b/c.csv") none [] rfl
    (fun _ hv' => nomatch hv')).1 rfl

/-- C5: in every `PkgManager.get` run, any resolution, fetch or output
checkout is preceded in the trace by a cache link-type configuration
write of exactly `"reflink,hardlink,copy"`; no cache-directory setting is
ever propagated to the ephemeral package; every link-type value written
is exactly that chain; a successful run does write it; and the chain
parses to reflink, hardlink, copy in that order, with symlink excluded. -/
theorem get_link_chain (env : Env) (url src : String)
    (out version : Option String) (fs : FS) :
    cacheTypeSetFirst (PkgManager.get env url src out version fs).trace false = true
  ∧ (PkgManager.get env url src out version fs).trace.all
      (fun ev => !(isSetCacheDirEvt ev)) = true
  ∧ (∀ v, Event.setCacheTypeEvt v ∈ (PkgManager.get env url src out version fs).trace →
      v = "reflink,hardlink,copy")
  ∧ ((PkgManager.get env url src out version fs).err = none →
      Event.setCacheTypeEvt "reflink,hardlink,copy" ∈
        (PkgManager.get env url src out version fs).trace)
  ∧ (splitOnChar ',' ("reflink,hardlink,copy".data)).map (fun l => String.mk l) =
      ["reflink", "hardlink", "copy"]
  ∧ "symlink" ∉ (splitOnChar ',' ("reflink,hardlink,copy".data)).map
      (fun l => String.mk l) := by
  have hsteps := install_trace_steps env
    (Pkg.ofUrl (tmpDirOf env (dirname (abspath env.cwd (effectiveOut src out)))) url version)
    false (tmpDirOf env (dirname (abspath env.cwd (effectiveOut src out))) :: fs)
  rcases hR : Pkg.install env
    (Pkg.ofUrl (tmpDirOf env (dirname (abspath env.cwd (effectiveOut src out)))) url version)
    none false (tmpDirOf env (dirname (abspath env.cwd (effectiveOut src out))) :: fs)
    with ⟨e, fs1, tr1⟩
  rw [hR] at hsteps
  simp only at hsteps
  simp only [Pkg.ofUrl] at hR
  have hscan := fun rest seen => cacheTypeSetFirst_append tr1 rest seen hsteps
  have hcd := no_setCacheDir_of_steps tr1 hsteps
  simp only [List.all_eq_true, Bool.not_eq_true', isSetCacheDirEvt] at hcd
  have hct : ∀ v, Event.setCacheTypeEvt v ∉ tr1 :=
    fun v => no_setCacheType_of_steps tr1 v hsteps
  cases e with
  | some e' =>
    refine ⟨?_, ?_, ?_, ?_, by decide, by decide⟩ <;>
      simp [PkgManager.get, PkgManager.getBody, Pkg.ofUrl, hR, hscan, hcd, hct,
        cacheTypeSetFirst, isSetCacheDirEvt] <;> exact hcd
  | none =>
    cases houts : env.findOutsByPath
        (joinPath (joinPath (tmpDirOf env (dirname (abspath env.cwd (effectiveOut src out))))
          (basename url)) (lstripSlashes (urlPathOf src))) with
    | nil =>
      refine ⟨?_, ?_, ?_, ?_, by decide, by decide⟩ <;>
        simp [PkgManager.get, PkgManager.getBody, Pkg.ofUrl, hR, houts, hscan, hcd, hct,
          cacheTypeSetFirst, isSetCacheDirEvt] <;> exact hcd
    | cons a t =>
      cases t with
      | nil =>
        cases hf : env.fetchOk a.stagePath with
        | false =>
          refine ⟨?_, ?_, ?_, ?_, by decide, by decide⟩ <;>
            simp [PkgManager.get, PkgManager.getBody, Pkg.ofUrl, hR, houts, hf, hscan, hcd, hct,
              cacheTypeSetFirst, isSetCacheDirEvt] <;> exact hcd
        | true =>
          cases hco : env.outCheckoutOk (abspath env.cwd (effectiveOut src out)) with
          | false =>
            refine ⟨?_, ?_, ?_, ?_, by decide, by decide⟩ <;>
              simp [PkgManager.get, PkgManager.getBody, Pkg.ofUrl, hR, houts, hf, hco, hscan,
                hcd, hct, cacheTypeSetFirst, isSetCacheDirEvt] <;> exact hcd
          | true =>
            refine ⟨?_, ?_, ?_, ?_, by decide, by decide⟩ <;>
              simp [PkgManager.get, PkgManager.getBody, Pkg.ofUrl, hR, houts, hf, hco, hscan,
                hcd, hct, cacheTypeSetFirst, isSetCacheDirEvt] <;> exact hcd
      | cons b t2 =>
        refine ⟨?_, ?_, ?_, ?_, by decide, by decide⟩ <;>
          simp [PkgManager.get, PkgManager.getBody, Pkg.ofUrl, hR, houts, hscan, hcd, hct,
            cacheTypeSetFirst, isSetCacheDirEvt] <;> exact hcd

theorem get_link_chain_witness :
    cacheTypeSetFirst
      (PkgManager.get envAll "u" "data.csv" (some "/a/b/c.csv") none []).trace false = true
  ∧ Event.setCacheTypeEvt "reflink,hardlink,copy" ∈
      (PkgManager.get envAll "u" "data.csv" (some "/a/b/c.csv") none []).trace :=
  ⟨(get_link_chain envAll "u" "data.csv" (some "/a/b/c.csv") none []).1,
   (get_link_chain envAll "u" "data.csv" (some "/a/b/c.csv") none []).2.2.2.1 (by decide)⟩

end Dvc
